import Mathlib

/-!
Shallow embedding of the core pipeline of `src/app.py` (Scrum Assistant):
the breakdown-text parser (`parse_breakdown_from_text`), the dependency
graph construction loop of `visualize_dependencies_with_plotly`, the
dependency matrix (`generate_dependency_matrix`), and the tabular
projection (`process_to_dataframe`).

Strings are modelled as lists of characters (`Str`); Python's
`str.split(sep)` for the one- and two-character separators used by the
source (`"\n"`, `", "`, `": "`, `"; "`) is modelled by `splitOne` /
`splitTwo`, which split on non-overlapping occurrences scanned left to
right, keeping empty segments, exactly as Python does (`"".split(s) == [""]`).

Python dictionaries holding the five breakdown keys are modelled by
`Item`, whose fields are `Option Str`: `none` models an absent key, so
`dict.get(k, '')` becomes `Option.getD` and a bare `dict[k]` access
(which raises `KeyError` in Python) becomes monadic `Option` binding.
-/

namespace ScrumApp

/-- A Python string, as its list of characters. -/
abbrev Str := List Char

/-- Accumulator loop for splitting on a two-character separator `a b`.
`cur` holds the current segment, reversed.  Mirrors Python's
non-overlapping left-to-right scan of `str.split`. -/
def splitTwoGo (a b : Char) (cur : Str) : Str → List Str
  | [] => [cur.reverse]
  | [c] => [(c :: cur).reverse]
  | c :: d :: cs =>
    if c = a ∧ d = b then cur.reverse :: splitTwoGo a b [] cs
    else splitTwoGo a b (c :: cur) (d :: cs)

/-- Python `s.split(ab)` for a two-character separator `ab = [a, b]`. -/
def splitTwo (a b : Char) (s : Str) : List Str :=
  splitTwoGo a b [] s

/-- Accumulator loop for splitting on a single-character separator. -/
def splitOneGo (sep : Char) (cur : Str) : Str → List Str
  | [] => [cur.reverse]
  | c :: cs =>
    if c = sep then cur.reverse :: splitOneGo sep [] cs
    else splitOneGo sep (c :: cur) cs

/-- Python `s.split(sep)` for a one-character separator. -/
def splitOne (sep : Char) (s : Str) : List Str :=
  splitOneGo sep [] s

/-- `hasPair a b s` is true iff the two-character separator `a b` occurs
(as two adjacent characters) somewhere in `s`. -/
def hasPair (a b : Char) : Str → Bool
  | [] => false
  | c :: cs =>
    match cs with
    | [] => false
    | d :: _ => (c = a && d = b) || hasPair a b cs

/-- One breakdown item: a Python dict over the five known keys, a field
being `none` when the key is absent. -/
structure Item where
  summary : Option Str
  issue_kind : Option Str
  epic_name : Option Str
  story_points : Option Str
  dependencies : Option Str
deriving DecidableEq, Repr

/-- `part.split(": ")[1] if len(part.split(": ")) > 1 else ""`
(src/app.py lines 87-91): the element at index 1 of the field split on
`": "`, or the empty string when the split has a single element. -/
def extractValue (part : Str) : Str :=
  match splitTwo ':' ' ' part with
  | _ :: v :: _ => v
  | _ => []

/-- One iteration of the parser loop (src/app.py lines 84-100): split the
line on `", "`; if there are at least five parts, build the record from
the first five parts, otherwise skip the line. -/
def parseLine (line : Str) : Option Item :=
  match splitTwo ',' ' ' line with
  | p0 :: p1 :: p2 :: p3 :: p4 :: _ =>
    some ⟨some (extractValue p0), some (extractValue p1), some (extractValue p2),
          some (extractValue p3), some (extractValue p4)⟩
  | _ => none

/-- `parse_breakdown_from_text` (src/app.py lines 79-102): split the text
on newlines and keep one record per line that has at least five
`", "`-separated parts. -/
def parse_breakdown_from_text (text : Str) : List Item :=
  (splitOne '\n' text).filterMap parseLine

/-- A networkx-style directed graph: insertion-ordered node and edge
lists without duplicates (networkx node/edge sets). -/
structure Graph where
  nodes : List Str
  edges : List (Str × Str)
deriving DecidableEq, Repr

/-- `G.add_node(n)`: insert the node if not already present. -/
def addNode (g : Graph) (n : Str) : Graph :=
  if n ∈ g.nodes then g else { g with nodes := g.nodes ++ [n] }

/-- `G.add_edge(u, v)`: insert both endpoints and the directed edge,
idempotently. -/
def addEdge (g : Graph) (u v : Str) : Graph :=
  if (u, v) ∈ (addNode (addNode g u) v).edges then addNode (addNode g u) v
  else { addNode (addNode g u) v with
         edges := (addNode (addNode g u) v).edges ++ [(u, v)] }

/-- The graph-building loop of `visualize_dependencies_with_plotly`
(src/app.py lines 170-175): for each item read `item['Epic Name']` and
`item['Summary']` (a missing key raises, modelled by `none`), add both
as nodes and add the directed edge epic → task.  The `Dependencies`
field is never read. -/
def buildGraphLoop (g : Graph) : List Item → Option Graph
  | [] => some g
  | item :: rest => do
    let epic ← item.epic_name
    let task ← item.summary
    buildGraphLoop (addEdge (addNode (addNode g epic) task) epic task) rest

/-- `visualize_dependencies_with_plotly` (src/app.py lines 165-183),
restricted to the graph it constructs (the spring layout and plotly
rendering are out of scope). -/
def visualize_dependencies_with_plotly (items : List Item) : Option Graph :=
  buildGraphLoop ⟨[], []⟩ items

/-- The dependency matrix: the pandas DataFrame's row/column labels (the
`tasks` list, in order, duplicates kept as pandas keeps duplicate
labels) together with the label-addressed cell contents. -/
structure DepMatrix where
  labels : List Str
  cell : Str → Str → Nat

/-- `matrix.at[t, d] = 1`: label-addressed single-cell update. -/
def setAt (m : Str → Str → Nat) (t d : Str) : Str → Str → Nat :=
  fun t' d' => if t' = t ∧ d' = d then 1 else m t' d'

/-- The inner loop of `generate_dependency_matrix` (src/app.py lines
288-291): split the raw `Dependencies` string on `"; "` (no whitespace
trimming) and set `matrix.at[task, dependency] = 1` for every resulting
name that occurs in `tasks`. -/
def setCells (tasks : List Str) (task deps : Str) (m : Str → Str → Nat) :
    Str → Str → Nat :=
  (splitTwo ';' ' ' deps).foldl
    (fun m' dep => if dep ∈ tasks then setAt m' task dep else m') m

/-- The outer loop of `generate_dependency_matrix` (src/app.py lines
286-291): for each item read `item['Summary']` and `item['Dependencies']`
(a missing key raises, modelled by `none`) and run the inner update. -/
def fillLoop (tasks : List Str) (m : Str → Str → Nat) :
    List Item → Option (Str → Str → Nat)
  | [] => some m
  | item :: rest => do
    let task ← item.summary
    let deps ← item.dependencies
    fillLoop tasks (setCells tasks task deps m) rest

/-- `[item['Summary'] for item in breakdown_items]`: the Summary of every
item in order (epics and duplicates included); a missing `Summary` key
raises `KeyError`, modelled by `none`. -/
def collectSummaries : List Item → Option (List Str)
  | [] => some []
  | item :: rest => do
    let s ← item.summary
    let ss ← collectSummaries rest
    pure (s :: ss)

/-- `generate_dependency_matrix` (src/app.py lines 281-293): labels are
`[item['Summary'] for item in breakdown_items]` (every item, epics and
duplicates included), the matrix starts at all zeroes, then the update
loop runs. -/
def generate_dependency_matrix (items : List Item) : Option DepMatrix := do
  let tasks ← collectSummaries items
  let cell ← fillLoop tasks (fun _ _ => 0) items
  pure ⟨tasks, cell⟩

/-- One row of the projected table: the five columns, as plain strings. -/
structure Row where
  summary : Str
  issue_kind : Str
  epic_name : Str
  story_points : Str
  dependencies : Str
deriving DecidableEq, Repr

/-- `process_to_dataframe` (src/app.py lines 213-235): one row per item,
in order, every field read with `item.get(key, '')`, i.e. defaulted to
the empty string when the key is absent.  Total: it never fails. -/
def process_to_dataframe (items : List Item) : List Row :=
  items.map (fun item =>
    ⟨item.summary.getD [], item.issue_kind.getD [], item.epic_name.getD [],
     item.story_points.getD [], item.dependencies.getD []⟩)

/-! ### Lemmas about the split functions -/

theorem splitTwoGo_sep_head (a b : Char) (cur y : Str) :
    splitTwoGo a b cur (a :: b :: y) = cur.reverse :: splitTwoGo a b [] y := by
  simp [splitTwoGo]

theorem hasPair_cons_cons (a b c d : Char) (cs : Str) :
    hasPair a b (c :: d :: cs) = ((c = a && d = b) || hasPair a b (d :: cs)) := by
  rfl

/-- A string with no occurrence of the separator is returned as a single
segment (appended to the pending accumulator). -/
theorem splitTwoGo_no_pair (a b : Char) :
    ∀ (s cur : Str), hasPair a b s = false →
      splitTwoGo a b cur s = [cur.reverse ++ s]
  | [], cur, _ => by simp [splitTwoGo]
  | [c], cur, _ => by simp [splitTwoGo]
  | c :: d :: cs, cur, h => by
    rw [hasPair_cons_cons] at h
    have h1 : ¬(c = a ∧ d = b) := by
      rcases Bool.or_eq_false_iff.mp h with ⟨h', _⟩
      intro hcd
      simp [hcd.1, hcd.2] at h'
    have h2 : hasPair a b (d :: cs) = false :=
      (Bool.or_eq_false_iff.mp h).2
    rw [splitTwoGo, if_neg h1, splitTwoGo_no_pair a b (d :: cs) (c :: cur) h2]
    simp

theorem splitTwo_no_pair (a b : Char) (s : Str) (h : hasPair a b s = false) :
    splitTwo a b s = [s] := by
  simpa using splitTwoGo_no_pair a b s [] h

/-- Splitting a string of the form `x ++ sep ++ y` where `x` contains no
occurrence of the separator: `x` is the first segment and the scan
continues on `y`. -/
theorem splitTwoGo_append_sep (a b : Char) (hab : a ≠ b) :
    ∀ (x cur y : Str), hasPair a b x = false →
      splitTwoGo a b cur (x ++ a :: b :: y) =
        (cur.reverse ++ x) :: splitTwoGo a b [] y
  | [], cur, y, _ => by
    simpa using splitTwoGo_sep_head a b cur y
  | [c], cur, y, _ => by
    have hcb : ¬(c = a ∧ a = b) := fun hc => hab hc.2
    rw [List.cons_append, List.nil_append, splitTwoGo, if_neg hcb,
      splitTwoGo_sep_head a b (c :: cur) y]
    simp
  | c :: d :: cs, cur, y, h => by
    rw [hasPair_cons_cons] at h
    have h1 : ¬(c = a ∧ d = b) := by
      rcases Bool.or_eq_false_iff.mp h with ⟨h', _⟩
      intro hcd
      simp [hcd.1, hcd.2] at h'
    have h2 : hasPair a b (d :: cs) = false :=
      (Bool.or_eq_false_iff.mp h).2
    rw [List.cons_append, List.cons_append, splitTwoGo, if_neg h1,
      ← List.cons_append,
      splitTwoGo_append_sep a b hab (d :: cs) (c :: cur) y h2]
    simp

theorem splitTwo_append_sep (a b : Char) (hab : a ≠ b) (x y : Str)
    (h : hasPair a b x = false) :
    splitTwo a b (x ++ a :: b :: y) = x :: splitTwoGo a b [] y := by
  simpa [splitTwo] using splitTwoGo_append_sep a b hab x [] y h

/-! ### Lemmas about the parser -/

theorem parseLine_of_split (line p0 p1 p2 p3 p4 : Str) (rest : List Str)
    (h : splitTwo ',' ' ' line = p0 :: p1 :: p2 :: p3 :: p4 :: rest) :
    parseLine line =
      some ⟨some (extractValue p0), some (extractValue p1), some (extractValue p2),
            some (extractValue p3), some (extractValue p4)⟩ := by
  simp [parseLine, h]

theorem parseLine_isSome_iff (line : Str) :
    (parseLine line).isSome ↔ 5 ≤ (splitTwo ',' ' ' line).length := by
  unfold parseLine
  rcases hs : splitTwo ',' ' ' line with _ | ⟨p0, _ | ⟨p1, _ | ⟨p2, _ | ⟨p3, _ | ⟨p4, rest⟩⟩⟩⟩⟩ <;>
    simp [Nat.succ_le_succ_iff]

theorem parseLine_nil : parseLine [] = none := by
  rfl

theorem splitTwo_nil (a b : Char) : splitTwo a b [] = [[]] := by
  rfl

/-- Any line with at least five parts is nonempty. -/
theorem parseLine_isSome_ne_nil (line : Str) (h : (parseLine line).isSome) :
    line ≠ [] := by
  intro hnil
  rw [hnil, parseLine_nil] at h
  simp at h

theorem length_filterMap_le_length_filter {α β : Type} (f : α → Option β)
    (p : α → Bool) (hfp : ∀ x, (f x).isSome → p x = true) :
    ∀ l : List α, (l.filterMap f).length ≤ (l.filter p).length := by
  intro l
  induction l with
  | nil => simp
  | cons x xs ih =>
    rcases hx : f x with _ | y
    · have hfil : (x :: xs).filterMap f = xs.filterMap f := by
        simp [List.filterMap_cons, hx]
      rw [hfil]
      rcases hp : p x with _ | _
      · simpa [List.filter_cons, hp] using ih
      · rw [List.filter_cons, hp]
        exact Nat.le_succ_of_le ih
    · have hp : p x = true := hfp x (by simp [hx])
      rw [List.filterMap_cons, hx, List.filter_cons, hp]
      simpa using ih

/-! ### Lemmas about the graph builder -/

theorem nodes_addNode (g : Graph) (n m : Str) :
    m ∈ (addNode g n).nodes ↔ m ∈ g.nodes ∨ m = n := by
  unfold addNode
  split <;> rename_i h
  · exact ⟨Or.inl, fun hm => hm.elim id (fun he => he ▸ h)⟩
  · simp

theorem edges_addNode (g : Graph) (n : Str) : (addNode g n).edges = g.edges := by
  unfold addNode
  split <;> rfl

theorem mem_edges_addEdge (g : Graph) (u v : Str) (e : Str × Str) :
    e ∈ (addEdge g u v).edges ↔ e ∈ g.edges ∨ e = (u, v) := by
  unfold addEdge
  split <;> rename_i h <;> rw [edges_addNode, edges_addNode] at h ⊢
  · exact ⟨Or.inl, fun hm => hm.elim id (fun he => he ▸ h)⟩
  · simp

theorem mem_nodes_addEdge (g : Graph) (u v : Str) (n : Str) :
    n ∈ (addEdge g u v).nodes ↔ n ∈ g.nodes ∨ n = u ∨ n = v := by
  unfold addEdge
  split <;> simp [nodes_addNode, or_assoc]

/-- Edge-set characterization of the graph loop: a pair is an edge of the
result iff it was an edge already or some processed item contributes it
as its (epic name, summary) pair. -/
theorem buildGraphLoop_edges :
    ∀ (items : List Item) (g G : Graph), buildGraphLoop g items = some G →
      ∀ e : Str × Str, e ∈ G.edges ↔
        e ∈ g.edges ∨
          ∃ it ∈ items, it.epic_name = some e.1 ∧ it.summary = some e.2 := by
  intro items
  induction items with
  | nil =>
    intro g G h e
    simp only [buildGraphLoop] at h
    cases h
    simp
  | cons item rest ih =>
    intro g G h e
    rcases hepic : item.epic_name with _ | epic
    · simp [buildGraphLoop, hepic] at h
    rcases hsum : item.summary with _ | task
    · simp [buildGraphLoop, hepic, hsum] at h
    simp only [buildGraphLoop, hepic, hsum, Option.bind_eq_bind,
      Option.none_bind, Option.some_bind] at h
    have := ih _ _ h e
    rw [this, mem_edges_addEdge, edges_addNode, edges_addNode]
    constructor
    · rintro ((he | rfl) | ⟨it, hit, h1, h2⟩)
      · exact Or.inl he
      · exact Or.inr ⟨item, List.mem_cons_self item rest, by rw [hepic], by rw [hsum]⟩
      · exact Or.inr ⟨it, List.mem_cons_of_mem item hit, h1, h2⟩
    · rintro (he | ⟨it, hit, h1, h2⟩)
      · exact Or.inl (Or.inl he)
      · rcases List.mem_cons.mp hit with rfl | hit
        · rw [hepic, Option.some_inj] at h1
          rw [hsum, Option.some_inj] at h2
          exact Or.inl (Or.inr (Prod.ext_iff.mpr ⟨h1.symm, h2.symm⟩))
        · exact Or.inr ⟨it, hit, h1, h2⟩

/-- Node-set characterization of the graph loop. -/
theorem buildGraphLoop_nodes :
    ∀ (items : List Item) (g G : Graph), buildGraphLoop g items = some G →
      ∀ n : Str, n ∈ G.nodes ↔
        n ∈ g.nodes ∨
          ∃ it ∈ items, it.epic_name = some n ∨ it.summary = some n := by
  intro items
  induction items with
  | nil =>
    intro g G h n
    simp only [buildGraphLoop] at h
    cases h
    simp
  | cons item rest ih =>
    intro g G h n
    rcases hepic : item.epic_name with _ | epic
    · simp [buildGraphLoop, hepic] at h
    rcases hsum : item.summary with _ | task
    · simp [buildGraphLoop, hepic, hsum] at h
    simp only [buildGraphLoop, hepic, hsum, Option.bind_eq_bind,
      Option.none_bind, Option.some_bind] at h
    have := ih _ _ h n
    rw [this, mem_nodes_addEdge, nodes_addNode, nodes_addNode]
    constructor
    · rintro ((((hn | rfl) | rfl) | (rfl | rfl)) | ⟨it, hit, h1⟩)
      · exact Or.inl hn
      · exact Or.inr ⟨item, List.mem_cons_self item rest, Or.inl (by rw [hepic])⟩
      · exact Or.inr ⟨item, List.mem_cons_self item rest, Or.inr (by rw [hsum])⟩
      · exact Or.inr ⟨item, List.mem_cons_self item rest, Or.inl (by rw [hepic])⟩
      · exact Or.inr ⟨item, List.mem_cons_self item rest, Or.inr (by rw [hsum])⟩
      · exact Or.inr ⟨it, List.mem_cons_of_mem item hit, h1⟩
    · rintro (hn | ⟨it, hit, h1⟩)
      · exact Or.inl (Or.inl (Or.inl (Or.inl hn)))
      · rcases List.mem_cons.mp hit with rfl | hit
        · rcases h1 with h1 | h1
          · rw [hepic, Option.some_inj] at h1
            exact Or.inl (Or.inl (Or.inl (Or.inr h1.symm)))
          · rw [hsum, Option.some_inj] at h1
            exact Or.inl (Or.inl (Or.inr h1.symm))
        · exact Or.inr ⟨it, hit, h1⟩

/-! ### Lemmas about the dependency matrix -/

theorem foldlSet_eval (tasks : List Str) (task t d : Str) :
    ∀ (ds : List Str) (m : Str → Str → Nat),
      (ds.foldl (fun m' dep => if dep ∈ tasks then setAt m' task dep else m') m) t d =
        if t = task ∧ d ∈ ds ∧ d ∈ tasks then 1 else m t d := by
  intro ds
  induction ds with
  | nil =>
    intro m
    simp
  | cons dep ds' ih =>
    intro m
    rw [List.foldl_cons, ih]
    by_cases h1 : t = task ∧ d ∈ ds' ∧ d ∈ tasks
    · rw [if_pos h1, if_pos ⟨h1.1, List.mem_cons_of_mem dep h1.2.1, h1.2.2⟩]
    · rw [if_neg h1]
      by_cases h2 : t = task ∧ d = dep ∧ d ∈ tasks
      · have hdep : dep ∈ tasks := by
          rw [← h2.2.1]
          exact h2.2.2
        have hmem : d ∈ dep :: ds' := by
          rw [h2.2.1]
          exact List.mem_cons_self dep ds'
        rw [if_pos hdep, if_pos ⟨h2.1, hmem, h2.2.2⟩]
        show setAt m task dep t d = 1
        unfold setAt
        rw [if_pos ⟨h2.1, h2.2.1⟩]
      · have h3 : ¬(t = task ∧ d ∈ dep :: ds' ∧ d ∈ tasks) := by
          rintro ⟨ht, hmem, htk⟩
          rcases List.mem_cons.mp hmem with hd | hd
          · exact h2 ⟨ht, hd, htk⟩
          · exact h1 ⟨ht, hd, htk⟩
        rw [if_neg h3]
        by_cases hdep : dep ∈ tasks
        · rw [if_pos hdep]
          show setAt m task dep t d = m t d
          unfold setAt
          rw [if_neg (fun hc => h2 ⟨hc.1, hc.2, by rw [hc.2]; exact hdep⟩)]
        · rw [if_neg hdep]

theorem setCells_eval (tasks : List Str) (task deps : Str)
    (m : Str → Str → Nat) (t d : Str) :
    setCells tasks task deps m t d =
      if t = task ∧ d ∈ splitTwo ';' ' ' deps ∧ d ∈ tasks then 1 else m t d :=
  foldlSet_eval tasks task t d (splitTwo ';' ' ' deps) m

open Classical in
/-- Value of a cell after the whole update loop: `1` exactly where some
processed item's raw split dependencies hit the cell, otherwise the
initial value. -/
theorem fillLoop_eval (tasks : List Str) (t d : Str) :
    ∀ (items : List Item) (m r : Str → Str → Nat),
      fillLoop tasks m items = some r →
      r t d =
        if ∃ it ∈ items, ∃ ds, it.summary = some t ∧ it.dependencies = some ds ∧
            d ∈ splitTwo ';' ' ' ds ∧ d ∈ tasks
        then 1 else m t d := by
  intro items
  induction items with
  | nil =>
    intro m r h
    simp only [fillLoop] at h
    cases h
    rw [if_neg]
    rintro ⟨it, hit, _⟩
    exact absurd hit (List.not_mem_nil it)
  | cons item rest ih =>
    intro m r h
    rcases hsum : item.summary with _ | s
    · simp [fillLoop, hsum] at h
    rcases hdeps : item.dependencies with _ | ds0
    · simp [fillLoop, hsum, hdeps] at h
    simp only [fillLoop, hsum, hdeps, Option.bind_eq_bind, Option.some_bind] at h
    rw [ih _ _ h, setCells_eval]
    by_cases h1 : ∃ it ∈ rest, ∃ ds, it.summary = some t ∧ it.dependencies = some ds ∧
        d ∈ splitTwo ';' ' ' ds ∧ d ∈ tasks
    · obtain ⟨it, hit, ds, hall⟩ := h1
      rw [if_pos ⟨it, hit, ds, hall⟩,
        if_pos ⟨it, List.mem_cons_of_mem item hit, ds, hall⟩]
    · rw [if_neg h1]
      by_cases h2 : t = s ∧ d ∈ splitTwo ';' ' ' ds0 ∧ d ∈ tasks
      · rw [if_pos h2, if_pos ⟨item, List.mem_cons_self item rest, ds0,
          by rw [hsum, h2.1], hdeps, h2.2.1, h2.2.2⟩]
      · rw [if_neg h2, if_neg]
        rintro ⟨it, hit, ds, hs, hd, hsplit, htasks⟩
        rcases List.mem_cons.mp hit with rfl | hit'
        · rw [hsum, Option.some_inj] at hs
          rw [hdeps, Option.some_inj] at hd
          exact h2 ⟨hs.symm, by rw [hd]; exact hsplit, htasks⟩
        · exact h1 ⟨it, hit', ds, hs, hd, hsplit, htasks⟩

/-- Destructor for a successful run of `generate_dependency_matrix`. -/
theorem generate_some_elim (items : List Item) (M : DepMatrix)
    (h : generate_dependency_matrix items = some M) :
    collectSummaries items = some M.labels ∧
      fillLoop M.labels (fun _ _ => 0) items = some M.cell := by
  unfold generate_dependency_matrix at h
  rcases htasks : collectSummaries items with _ | tasks
  · rw [htasks] at h
    simp at h
  rw [htasks] at h
  simp only [Option.bind_eq_bind, Option.some_bind] at h
  rcases hfill : fillLoop tasks (fun _ _ => 0) items with _ | cell
  · rw [hfill] at h
    simp at h
  rw [hfill] at h
  simp only [Option.some_bind, Option.pure_def, Option.some_inj] at h
  subst h
  exact ⟨rfl, hfill⟩

/-- Cell characterization: a cell holds `1` iff some record's `Summary`
is the row label and the raw (untrimmed) split of its `Dependencies`
contains the column label, the latter being one of the labels. -/
theorem generate_cell_one_iff (items : List Item) (M : DepMatrix)
    (h : generate_dependency_matrix items = some M) (t d : Str) :
    M.cell t d = 1 ↔
      ∃ it ∈ items, ∃ ds, it.summary = some t ∧ it.dependencies = some ds ∧
        d ∈ splitTwo ';' ' ' ds ∧ d ∈ M.labels := by
  obtain ⟨hlabels, hfill⟩ := generate_some_elim items M h
  rw [fillLoop_eval M.labels t d items _ _ hfill]
  by_cases hq : ∃ it ∈ items, ∃ ds, it.summary = some t ∧ it.dependencies = some ds ∧
      d ∈ splitTwo ';' ' ' ds ∧ d ∈ M.labels
  · rw [if_pos hq]
    simpa using hq
  · rw [if_neg hq]
    simpa using hq

/-- A summary appearing in the record list appears among the collected
task labels. -/
theorem collectSummaries_mem :
    ∀ (items : List Item) (tasks : List Str),
      collectSummaries items = some tasks →
      ∀ it ∈ items, ∀ s : Str, it.summary = some s → s ∈ tasks := by
  intro items
  induction items with
  | nil =>
    intro tasks _ it hit
    exact absurd hit (List.not_mem_nil it)
  | cons item rest ih =>
    intro tasks h it hit s hs
    rcases hsum : item.summary with _ | s0
    · simp [collectSummaries, hsum] at h
    rcases hrest : collectSummaries rest with _ | ts
    · simp [collectSummaries, hsum, hrest] at h
    simp only [collectSummaries, hsum, hrest, Option.bind_eq_bind, Option.some_bind,
      Option.pure_def, Option.some_inj] at h
    rw [← h]
    rcases List.mem_cons.mp hit with rfl | hit'
    · rw [hsum, Option.some_inj] at hs
      rw [← hs]
      exact List.mem_cons_self s0 ts
    · exact List.mem_cons_of_mem s0 (ih ts hrest it hit' s hs)

theorem collectSummaries_isSome :
    ∀ items : List Item,
      (collectSummaries items).isSome ↔ ∀ it ∈ items, it.summary.isSome := by
  intro items
  induction items with
  | nil => simp [collectSummaries]
  | cons item rest ih =>
    constructor
    · intro h it hit
      rcases hsum : item.summary with _ | s
      · simp [collectSummaries, hsum] at h
      rcases hrest : collectSummaries rest with _ | ts
      · simp [collectSummaries, hsum, hrest] at h
      rcases List.mem_cons.mp hit with rfl | hit'
      · simp [hsum]
      · exact (ih.mp (by simp [hrest])) it hit'
    · intro h
      rcases hsum : item.summary with _ | s
      · have hthis := h item (List.mem_cons_self item rest)
        rw [hsum] at hthis
        simp at hthis
      have hrest : (collectSummaries rest).isSome :=
        ih.mpr (fun it hit => h it (List.mem_cons_of_mem item hit))
      rcases hrest' : collectSummaries rest with _ | ts
      · rw [hrest'] at hrest
        simp at hrest
      simp [collectSummaries, hsum, hrest']

theorem fillLoop_isSome (tasks : List Str) :
    ∀ (items : List Item) (m : Str → Str → Nat),
      (fillLoop tasks m items).isSome ↔
        ∀ it ∈ items, it.summary.isSome ∧ it.dependencies.isSome := by
  intro items
  induction items with
  | nil =>
    intro m
    simp [fillLoop]
  | cons item rest ih =>
    intro m
    constructor
    · intro h it hit
      rcases hsum : item.summary with _ | s
      · simp [fillLoop, hsum] at h
      rcases hdeps : item.dependencies with _ | ds0
      · simp [fillLoop, hsum, hdeps] at h
      rcases List.mem_cons.mp hit with rfl | hit'
      · simp [hsum, hdeps]
      · simp only [fillLoop, hsum, hdeps, Option.bind_eq_bind, Option.some_bind] at h
        exact ((ih _).mp h) it hit'
    · intro h
      have hitem := h item (List.mem_cons_self item rest)
      rcases hsum : item.summary with _ | s
      · rw [hsum] at hitem
        simp at hitem
      rcases hdeps : item.dependencies with _ | ds0
      · rw [hdeps] at hitem
        simp at hitem
      simp only [fillLoop, hsum, hdeps, Option.bind_eq_bind, Option.some_bind]
      exact (ih _).mpr (fun it hit => h it (List.mem_cons_of_mem item hit))

/-- `generate_dependency_matrix` succeeds exactly when every record has
both the `Summary` and the `Dependencies` keys. -/
theorem generate_isSome_iff (items : List Item) :
    (generate_dependency_matrix items).isSome ↔
      ∀ it ∈ items, it.summary.isSome ∧ it.dependencies.isSome := by
  constructor
  · intro h
    rcases hM : generate_dependency_matrix items with _ | M
    · rw [hM] at h
      simp at h
    obtain ⟨hlabels, hfill⟩ := generate_some_elim items M hM
    exact (fillLoop_isSome M.labels items (fun _ _ => 0)).mp (by simp [hfill])
  · intro h
    have htasks : (collectSummaries items).isSome :=
      (collectSummaries_isSome items).mpr (fun it hit => (h it hit).1)
    rcases htasks' : collectSummaries items with _ | tasks
    · rw [htasks'] at htasks
      simp at htasks
    have hfill : (fillLoop tasks (fun _ _ => 0) items).isSome :=
      (fillLoop_isSome tasks items (fun _ _ => 0)).mpr h
    rcases hfill' : fillLoop tasks (fun _ _ => 0) items with _ | cell
    · rw [hfill'] at hfill
      simp at hfill
    unfold generate_dependency_matrix
    rw [htasks']
    simp [hfill']

/-! ### Concrete record sets used by the claims -/

/-- The three records of the §8 scenario (two tasks plus the epic
record), written directly as records. -/
def scenarioItems : List Item :=
  [⟨some "Design login page".data, some "Task".data, some "Auth".data,
    some "3".data, some []⟩,
   ⟨some "Implement OAuth".data, some "Task".data, some "Auth".data,
    some "8".data, some "Design login page".data⟩,
   ⟨some "Auth".data, some "Epic".data, some [], some [], some []⟩]

/-- The row/column labels the matrix actually gets on the §8 records:
all three summaries, in input order. -/
def scenLabels : List Str :=
  ["Design login page".data, "Implement OAuth".data, "Auth".data]

/-- A record with the `Epic Name` key present but empty. -/
def emptyEpicItem : Item :=
  ⟨some "T".data, some "Task".data, some [], some [], some []⟩

/-- A record that depends on its own summary. -/
def selfDepItem : Item :=
  ⟨some "A".data, some "Task".data, some "E".data, some "1".data, some "A".data⟩

/-- The matrix built from the §8 scenario records. -/
def scenarioM : DepMatrix :=
  (generate_dependency_matrix scenarioItems).getD ⟨[], fun _ _ => 0⟩

/-- The graph built from the one-record list `[emptyEpicItem]`. -/
def emptyEpicG : Graph :=
  (visualize_dependencies_with_plotly [emptyEpicItem]).getD ⟨[], []⟩

/-- The matrix built from the one-record list `[selfDepItem]`. -/
def selfDepM : DepMatrix :=
  (generate_dependency_matrix [selfDepItem]).getD ⟨[], fun _ _ => 0⟩

/-! ### Claims -/

/-- C1 (counterexample): on the three §8 records, the second record's
dependency "Design login page" matches the first record's summary, yet
the graph the code builds does not contain the edge
Implement OAuth → Design login page — its edges are exactly the
epic → task pairs (including one from the empty epic name). -/
theorem c1_counterexample :
    visualize_dependencies_with_plotly scenarioItems =
      some ⟨["Auth".data, "Design login page".data, "Implement OAuth".data, []],
            [("Auth".data, "Design login page".data),
             ("Auth".data, "Implement OAuth".data),
             ([], "Auth".data)]⟩ ∧
    ("Implement OAuth".data, "Design login page".data) ∉
      [("Auth".data, "Design login page".data),
       ("Auth".data, "Implement OAuth".data),
       ([], "Auth".data)] := by
  constructor
  · rfl
  · decide

/-- C1 (amended): the graph builder never creates task → dependency
edges: every edge of the graph returned by
`visualize_dependencies_with_plotly` is the (epic name, summary) pair of
some record; the `dependencies` field is ignored, so the §8 scenario's
graph lacks the edge Implement OAuth → Design login page. -/
theorem c1_edges_only_epic_task (items : List Item) (G : Graph)
    (h : visualize_dependencies_with_plotly items = some G) (u v : Str)
    (he : (u, v) ∈ G.edges) :
    ∃ it ∈ items, it.epic_name = some u ∧ it.summary = some v := by
  have hchar := buildGraphLoop_edges items ⟨[], []⟩ G h (u, v)
  rcases hchar.mp he with hin | hrest
  · exact absurd hin (List.not_mem_nil (u, v))
  · exact hrest

/-- C1 (witness): instantiation of `c1_edges_only_epic_task` on the §8
records at the edge from "Auth" to "Design login page". -/
theorem c1_witness :
    ∃ it ∈ scenarioItems, it.epic_name = some "Auth".data ∧
      it.summary = some "Design login page".data := by
  refine c1_edges_only_epic_task scenarioItems
    ⟨["Auth".data, "Design login page".data, "Implement OAuth".data, []],
     [("Auth".data, "Design login page".data),
      ("Auth".data, "Implement OAuth".data),
      ([], "Auth".data)]⟩ rfl "Auth".data "Design login page".data (by decide)

/-- C3 (counterexample): a record whose `Epic Name` is the empty string
still produces an epic node (the empty-string node) and an epic → task
edge, contradicting the claim that no edge or epic node is created when
`epic_name` is empty. -/
theorem c3_counterexample :
    visualize_dependencies_with_plotly [emptyEpicItem] =
      some ⟨[[], "T".data], [([], "T".data)]⟩ ∧
    (([], "T".data) ∈ ([([], "T".data)] : List (Str × Str)) ∧
      ([] : Str) ∈ ([[], "T".data] : List Str)) := by
  constructor
  · rfl
  · decide

/-- C3 (amended): the graph builder adds, for every record carrying both
keys, the epic and summary as nodes and the directed epic → task edge,
unconditionally — also when `epic_name` is the empty string, which then
becomes a node itself: an edge (u, v) exists iff some record has
epic name u and summary v, and a node exists iff some record mentions it
as epic name or summary. -/
theorem c3_edge_iff (items : List Item) (G : Graph)
    (h : visualize_dependencies_with_plotly items = some G) (u v : Str) :
    ((u, v) ∈ G.edges ↔
      ∃ it ∈ items, it.epic_name = some u ∧ it.summary = some v) ∧
    (v ∈ G.nodes ↔
      ∃ it ∈ items, it.epic_name = some v ∨ it.summary = some v) := by
  constructor
  · have hchar := buildGraphLoop_edges items ⟨[], []⟩ G h (u, v)
    rw [hchar]
    constructor
    · rintro (hin | hrest)
      · exact absurd hin (List.not_mem_nil (u, v))
      · exact hrest
    · exact Or.inr
  · have hchar := buildGraphLoop_nodes items ⟨[], []⟩ G h v
    rw [hchar]
    constructor
    · rintro (hin | hrest)
      · exact absurd hin (List.not_mem_nil v)
      · exact hrest
    · exact Or.inr

/-- C3 (witness): instantiation of `c3_edge_iff` on `[emptyEpicItem]` at
the empty-name epic edge and the empty-string node. -/
theorem c3_witness :
    ((([] : Str), "T".data) ∈ emptyEpicG.edges ↔
      ∃ it ∈ [emptyEpicItem], it.epic_name = some [] ∧
        it.summary = some "T".data) ∧
    (([] : Str) ∈ emptyEpicG.nodes ↔
      ∃ it ∈ [emptyEpicItem], it.epic_name = some [] ∨
        it.summary = some []) :=
  ⟨(c3_edge_iff [emptyEpicItem] emptyEpicG rfl [] "T".data).1,
   (c3_edge_iff [emptyEpicItem] emptyEpicG rfl [] []).2⟩

/-- C7 (counterexample): a record that depends on its own summary "A"
does not give the graph a self-loop at "A" — the graph construction
ignores dependencies, so the only edge is the epic → task edge
("E", "A"). -/
theorem c7_counterexample :
    visualize_dependencies_with_plotly [selfDepItem] =
      some ⟨["E".data, "A".data], [("E".data, "A".data)]⟩ ∧
    ("A".data, "A".data) ∉ ([("E".data, "A".data)] : List (Str × Str)) := by
  constructor
  · rfl
  · decide

/-- C7 (amended): a record depending on its own summary yields a true
diagonal matrix cell at that summary, but no graph self-loop: a
self-loop (s, s) appears in the graph only when some record has epic
name and summary both equal to s. -/
theorem c7_self_dependency :
    (∀ (items : List Item) (M : DepMatrix) (it : Item) (s ds : Str),
      generate_dependency_matrix items = some M → it ∈ items →
      it.summary = some s → it.dependencies = some ds →
      s ∈ splitTwo ';' ' ' ds → M.cell s s = 1) ∧
    (∀ (items : List Item) (G : Graph) (s : Str),
      visualize_dependencies_with_plotly items = some G →
      ((s, s) ∈ G.edges ↔
        ∃ it ∈ items, it.epic_name = some s ∧ it.summary = some s)) := by
  constructor
  · intro items M it s ds hM hit hs hds hmem
    have hlabels := (generate_some_elim items M hM).1
    have hsl : s ∈ M.labels := collectSummaries_mem items M.labels hlabels it hit s hs
    exact (generate_cell_one_iff items M hM s s).mpr ⟨it, hit, ds, hs, hds, hmem, hsl⟩
  · intro items G s h
    have hchar := buildGraphLoop_edges items ⟨[], []⟩ G h (s, s)
    rw [hchar]
    constructor
    · rintro (hin | hrest)
      · exact absurd hin (List.not_mem_nil (s, s))
      · exact hrest
    · exact Or.inr

/-- C7 (witness): instantiation of `c7_self_dependency` on
`[selfDepItem]`: the diagonal cell at "A" is 1, and the self-loop at "A"
is equivalent to some record having epic name and summary both "A". -/
theorem c7_witness :
    selfDepM.cell "A".data "A".data = 1 ∧
    (("A".data, "A".data) ∈
        ((visualize_dependencies_with_plotly [selfDepItem]).getD ⟨[], []⟩).edges ↔
      ∃ it ∈ [selfDepItem], it.epic_name = some "A".data ∧
        it.summary = some "A".data) :=
  ⟨c7_self_dependency.1 [selfDepItem] selfDepM selfDepItem "A".data "A".data
      rfl (List.mem_cons_self selfDepItem []) rfl rfl (by decide),
   c7_self_dependency.2 [selfDepItem]
      ((visualize_dependencies_with_plotly [selfDepItem]).getD ⟨[], []⟩)
      "A".data rfl⟩

/-- C2 (counterexample): on the three §8 records the matrix is 3×3, not
2×2: its labels are all three summaries — the epic record "Auth"
included — in input order. -/
theorem c2_counterexample :
    (generate_dependency_matrix scenarioItems).map DepMatrix.labels =
      some scenLabels ∧
    scenLabels.length ≠ 2 := by
  constructor
  · rfl
  · decide

/-- C2 (amended): the matrix has one row and one column per record — its
labels are exactly the records' Summary values in input order, epic
records and duplicate summaries included — so on the three §8 records it
is 3×3 over [Design login page, Implement OAuth, Auth], and the only
1-valued cell is (Implement OAuth, Design login page). -/
theorem c2_matrix_per_record :
    (∀ (items : List Item) (M : DepMatrix),
      generate_dependency_matrix items = some M →
      collectSummaries items = some M.labels) ∧
    ((generate_dependency_matrix scenarioItems).map
        (fun M => scenLabels.map (fun t => scenLabels.map (M.cell t))) =
      some [[0, 0, 0], [1, 0, 0], [0, 0, 0]]) := by
  constructor
  · intro items M hM
    exact (generate_some_elim items M hM).1
  · rfl

/-- C2 (witness): instantiation of `c2_matrix_per_record` on the §8
records. -/
theorem c2_witness : collectSummaries scenarioItems = some scenarioM.labels :=
  c2_matrix_per_record.1 scenarioItems scenarioM rfl

/-- Two records where the first depends on " B" (leading space) and the
second is the task "B". -/
def c6Items : List Item :=
  [⟨some "A".data, some "Task".data, some [], some [], some " B".data⟩,
   ⟨some "B".data, some "Task".data, some [], some [], some []⟩]

/-- The matrix built from `c6Items`. -/
def c6M : DepMatrix :=
  (generate_dependency_matrix c6Items).getD ⟨[], fun _ _ => 0⟩

/-- C6 (counterexample): a dependency name " B" that matches the summary
"B" only after trimming whitespace does not resolve: no trimming is
performed, so the cell ("A", "B") stays 0 (and so does ("A", " B"),
since " B" is not a row label). -/
theorem c6_counterexample :
    (generate_dependency_matrix c6Items).map
      (fun M => (M.cell "A".data "B".data, M.cell "A".data " B".data)) =
    some (0, 0) := by
  rfl

/-- C6 (amended): when resolving a record's dependencies for the matrix
the builder splits the raw `Dependencies` string on "; " and compares
each resulting name untrimmed, by exact string equality, with the row
labels: a cell is 1 iff some record's summary is the row label and the
raw split of its dependencies contains the column label among the
labels; a name matching only after trimming does not resolve (and the
graph builder ignores the dependencies field entirely). -/
theorem c6_exact_untrimmed_match (items : List Item) (M : DepMatrix)
    (hM : generate_dependency_matrix items = some M) (t d : Str) :
    M.cell t d = 1 ↔
      ∃ it ∈ items, ∃ ds, it.summary = some t ∧ it.dependencies = some ds ∧
        d ∈ splitTwo ';' ' ' ds ∧ d ∈ M.labels :=
  generate_cell_one_iff items M hM t d

/-- C6 (witness): instantiation of `c6_exact_untrimmed_match` on
`c6Items` at the cell ("A", " B"). -/
theorem c6_witness :
    c6M.cell "A".data " B".data = 1 ↔
      ∃ it ∈ c6Items, ∃ ds, it.summary = some "A".data ∧
        it.dependencies = some ds ∧
        " B".data ∈ splitTwo ';' ' ' ds ∧ " B".data ∈ c6M.labels :=
  c6_exact_untrimmed_match c6Items c6M rfl "A".data " B".data

/-- C4 (counterexample): in the first field "Summary: a: b" the
substring after the first occurrence of ": " is "a: b", but the parser
extracts only "a" — the segment before the next ": ". -/
theorem c4_counterexample :
    (parse_breakdown_from_text
        "Summary: a: b, Issue Type: T, Epic Name: E, Story Points: 1, Dependencies: x".data).map
      Item.summary = [some "a".data] ∧
    "a".data ≠ "a: b".data := by
  constructor
  · rfl
  · decide

/-- C4 (amended): for each of the first five ", "-separated fields of a
qualifying line the parser takes as the field's value the segment of the
field between the first occurrence of ": " and the next occurrence (or
the end of the field): in a field of shape l ++ ": " ++ v ++ ": " ++ w
with no other occurrences the value is v, not v ++ ": " ++ w; a field
lacking ": " yields the empty string rather than failing the line. -/
theorem c4_value_between_occurrences :
    (∀ l v w : Str, hasPair ':' ' ' l = false → hasPair ':' ' ' v = false →
      hasPair ':' ' ' w = false →
      extractValue (l ++ ':' :: ' ' :: (v ++ ':' :: ' ' :: w)) = v) ∧
    (∀ p : Str, hasPair ':' ' ' p = false → extractValue p = []) := by
  constructor
  · intro l v w hl hv hw
    unfold extractValue
    rw [splitTwo_append_sep ':' ' ' (by decide) l _ hl,
      splitTwoGo_append_sep ':' ' ' (by decide) v [] w hv,
      splitTwoGo_no_pair ':' ' ' w [] hw]
    simp
  · intro p hp
    unfold extractValue
    rw [splitTwo_no_pair ':' ' ' p hp]

/-- C4 (witness): instantiation of `c4_value_between_occurrences` on the
field "Summary: a: b" (value "a") and on a field with no ": ". -/
theorem c4_witness :
    extractValue
        ("Summary".data ++ ':' :: ' ' :: ("a".data ++ ':' :: ' ' :: "b".data)) =
      "a".data ∧
    extractValue "NoValueHere".data = [] :=
  ⟨c4_value_between_occurrences.1 "Summary".data "a".data "b".data
      (by decide) (by decide) (by decide),
   c4_value_between_occurrences.2 "NoValueHere".data (by decide)⟩

/-- C5: the parser returns one record exactly for those lines whose
", "-split has at least five parts; malformed and empty lines are
skipped (the parser is a total function, so it never raises); the number
of records is at most the number of nonempty input lines; and empty
input yields the empty record list. -/
theorem c5_parse_skips_malformed :
    (∀ line : Str, (parseLine line).isSome ↔ 5 ≤ (splitTwo ',' ' ' line).length) ∧
    (∀ text : Str,
      (parse_breakdown_from_text text).length ≤
        ((splitOne '\n' text).filter (fun l => !l.isEmpty)).length) ∧
    parse_breakdown_from_text [] = [] := by
  refine ⟨parseLine_isSome_iff, ?_, rfl⟩
  intro text
  unfold parse_breakdown_from_text
  refine length_filterMap_le_length_filter parseLine (fun l => !l.isEmpty) ?_ _
  intro x hx
  have hne := parseLine_isSome_ne_nil x hx
  cases x
  · exact absurd rfl hne
  · rfl

/-- The label-irrelevance demonstration line of C9. -/
def fooLine : Str := "Foo: x, Bar: y, Baz: z, Qux: w, Quux: u".data

/-- C9: extraction is purely positional and never inspects the label
before ": ": any line whose ", "-split has at least five parts yields
the record of the extracted values of parts 1 through 5 in order, the
value of a field l ++ ": " ++ v is v for every label l, and in
particular the line "Foo: x, Bar: y, Baz: z, Qux: w, Quux: u" parses
with summary "x". -/
theorem c9_positional_extraction :
    (∀ line p0 p1 p2 p3 p4 : Str, ∀ rest : List Str,
      splitTwo ',' ' ' line = p0 :: p1 :: p2 :: p3 :: p4 :: rest →
      parseLine line =
        some ⟨some (extractValue p0), some (extractValue p1),
              some (extractValue p2), some (extractValue p3),
              some (extractValue p4)⟩) ∧
    (∀ l v : Str, hasPair ':' ' ' l = false → hasPair ':' ' ' v = false →
      extractValue (l ++ ':' :: ' ' :: v) = v) ∧
    parse_breakdown_from_text fooLine =
      [⟨some "x".data, some "y".data, some "z".data, some "w".data,
        some "u".data⟩] := by
  refine ⟨parseLine_of_split, ?_, rfl⟩
  intro l v hl hv
  unfold extractValue
  rw [splitTwo_append_sep ':' ' ' (by decide) l v hl,
    splitTwoGo_no_pair ':' ' ' v [] hv]
  simp

/-- C9 (witness): instantiation of `c9_positional_extraction` on the
"Foo: x" line and on the field "Foo: x" itself. -/
theorem c9_witness :
    parseLine fooLine =
      some ⟨some (extractValue "Foo: x".data), some (extractValue "Bar: y".data),
            some (extractValue "Baz: z".data), some (extractValue "Qux: w".data),
            some (extractValue "Quux: u".data)⟩ ∧
    extractValue ("Foo".data ++ ':' :: ' ' :: "x".data) = "x".data :=
  ⟨c9_positional_extraction.1 fooLine "Foo: x".data "Bar: y".data "Baz: z".data
      "Qux: w".data "Quux: u".data [] (by decide),
   c9_positional_extraction.2.1 "Foo".data "x".data (by decide) (by decide)⟩

/-- C8: the tabular projection produces exactly one row per input
record, in input order, each of the five attributes defaulted to the
empty string when the key is absent; as a total function of the record
list it never fails on a partially-populated record. -/
theorem c8_one_row_per_record (items : List Item) :
    (process_to_dataframe items).length = items.length ∧
    ∀ i : Nat, (process_to_dataframe items)[i]? =
      (items[i]?).map (fun it =>
        ⟨it.summary.getD [], it.issue_kind.getD [], it.epic_name.getD [],
         it.story_points.getD [], it.dependencies.getD []⟩) := by
  constructor
  · exact List.length_map items _
  · intro i
    unfold process_to_dataframe
    exact List.getElem?_map _ items i

/-- C10: `generate_dependency_matrix` is partial at its interface: it
succeeds exactly when every record carries both the `Summary` key and
the `Dependencies` key, so a record missing either makes the whole call
fail (nothing is skipped or defaulted) and under the all-keys
precondition the failure branch is unreachable — unlike
`process_to_dataframe`, which is total and still yields one row per
record. -/
theorem c10_matrix_requires_keys (items : List Item) :
    ((generate_dependency_matrix items).isSome ↔
      ∀ it ∈ items, it.summary.isSome ∧ it.dependencies.isSome) ∧
    (process_to_dataframe items).length = items.length :=
  ⟨generate_isSome_iff items, List.length_map items _⟩

end ScrumApp
